import Mathlib

/-!
Shallow embedding of `mpttmenu/processors.py` (django-mptt-menu).

The module resolves, for a rendering context, which menu tree node
corresponds to the current object and returns the depth-filtered subset
of nodes to render.  Python exceptions are modelled with `Except PyErr`,
Django querysets with `List MenuNode`, and the ambient `MenuNode.tree`
store is passed explicitly as a list of nodes.
-/

set_option autoImplicit false

namespace MpttMenu

/-- Python exceptions that the translated code can raise or catch:
`attributeError` models `AttributeError` (attribute access on `None`),
`keyError` models `KeyError` from a context lookup, `doesNotExist` and
`multipleObjectsReturned` model the Django `get()` errors, and `other`
stands for any unrelated exception an overridden method might raise. -/
inductive PyErr where
  | attributeError
  | keyError
  | doesNotExist
  | multipleObjectsReturned
  | other (code : Nat)
deriving DecidableEq

/-- An application entity that can appear in the menu.  `content_type`
models the Django content type of its class, `id` its primary key, and
`has_menu_node` whether the model declares the reverse generic relation
`menu_node = generic.GenericRelation(MenuNode)` (the `hasattr` test in
`determine_node_from_object`). -/
structure Subject where
  id : Nat
  content_type : Nat
  has_menu_node : Bool
deriving DecidableEq

/-- Modelled from the spec: `MenuNode` (from `mpttmenu.models`, not under
`src/`) is a node of the shared menu tree: identity, nullable parent
reference, depth (`level`), and a polymorphic reference to its subject
(`content_type` + `object_id`).  `url` stands for
`content_object.get_absolute_url()`, which the path-matching scan
compares against the request path. -/
structure MenuNode where
  id : Nat
  parent : Option Nat
  level : Nat
  content_type : Nat
  object_id : Nat
  url : String
deriving DecidableEq

/-- The rendering context: an optional object under the conventional
`object` key, plus the two path-extraction conventions
(`context['view'].request.path`, and the legacy `context['request_path']`).
`none` means the lookup raises (`KeyError`/`AttributeError`). -/
structure Context where
  object : Option Subject
  view_request_path : Option String
  request_path : Option String
deriving DecidableEq

/-- The backing tree store, i.e. the ambient `MenuNode.tree` queryset. -/
abbrev Store := List MenuNode

/-- First node of the store with the given id (`MenuNode.tree.get(pk=i)`
up to the first match). -/
def findNode (store : Store) (i : Nat) : Option MenuNode :=
  store.find? (fun m => m.id == i)

/-- Fuel-indexed walk up the parent chain; with enough fuel it reaches
the tree root.  Models mptt's `get_root()`. -/
def getRootFuel : Nat → Store → MenuNode → MenuNode
  | 0, _, n => n
  | fuel + 1, store, n =>
    match n.parent with
    | none => n
    | some pid =>
      match findNode store pid with
      | none => n
      | some p => getRootFuel fuel store p

/-- mptt `node.get_root()`: follow parent references to the root.  In a
well-formed store the level of a node bounds the length of its ancestor
chain, so `n.level` steps of fuel always suffice. -/
def get_root (store : Store) (n : MenuNode) : MenuNode :=
  getRootFuel n.level store n

/-- Fuel-indexed ancestor chain, ordered root first.  Models mptt's
`get_ancestors()` (ascending order, excluding the node itself). -/
def ancChainFuel : Nat → Store → MenuNode → List MenuNode
  | 0, _, _ => []
  | fuel + 1, store, n =>
    match n.parent with
    | none => []
    | some pid =>
      match findNode store pid with
      | none => []
      | some p => ancChainFuel fuel store p ++ [p]

/-- mptt `node.get_ancestors()`: the ancestors of `n`, root-to-parent. -/
def get_ancestors (store : Store) (n : MenuNode) : List MenuNode :=
  ancChainFuel n.level store n

/-- Whether `a` is a proper ancestor of `m` (by identity). -/
def isAncestorOf (store : Store) (a m : MenuNode) : Bool :=
  (get_ancestors store m).any (fun x => x.id == a.id)

/-- mptt `node.get_descendants(include_self)`: all store nodes below `n`
(plus `n` itself when `includeSelf`). -/
def get_descendants (store : Store) (n : MenuNode) (includeSelf : Bool) :
    List MenuNode :=
  store.filter (fun m => isAncestorOf store n m || (includeSelf && m.id == n.id))

/-- Modelled from the spec: `MenuCache` (from `mpttmenu.utils`, not under
`src/`) is the per-pass resolution cache, keyed by the determined subject
(possibly `None`); a missed key yields a falsy value instead of raising,
since `get_nodes` reads `self.cache[self.object]` before ever storing. -/
abbrev MenuCache := List (Option Subject × List MenuNode)

/-- Cache read: `self.cache[key]`; `none` models a miss. -/
def cacheLookup (c : MenuCache) (k : Option Subject) : Option (List MenuNode) :=
  (c.find? (fun e => e.1 == k)).map (fun e => e.2)

/-- Cache write: `self.cache[key] = v`. -/
def cacheStore (c : MenuCache) (k : Option Subject) (v : List MenuNode) :
    MenuCache :=
  (k, v) :: c.filter (fun e => !(e.1 == k))

/-- Python truthiness of the value read from the cache: a miss (`None`)
and an empty sequence are both falsy (`if not nodes:`). -/
def truthy : Option (List MenuNode) → Bool
  | some (_ :: _) => true
  | _ => false

/-- `nodes.filter(level__range=[level_min, level_max])`: the inclusive
depth window.  (`select_related('parent', 'content_object')` only
prefetches and does not change the sequence.) -/
def levelRangeFilter (lmin lmax : Int) (ns : List MenuNode) : List MenuNode :=
  ns.filter (fun m => decide (lmin ≤ (m.level : Int) ∧ (m.level : Int) ≤ lmax))

/-- The subtree-selection strategies: the default `determine_tree`
(all nodes) and the convenience `_get_*_nodes` overrides. -/
inductive Strategy where
  | allNodes
  | rootNodes
  | branch
  | rootAndBranch
  | rootAndSiblings
  | rootAndChildren
  | children
  | ancestors
  | descendants
deriving DecidableEq

/-- State of a `MenuProcessor` instance; `strategy` records which
`determine_tree` override is in effect (default: the full tree), and
`store` makes the ambient `MenuNode.tree` explicit. -/
structure MenuProcessor where
  context : Context
  store : Store
  object_passed : Bool
  object : Option Subject
  node : Option MenuNode
  level_min : Int
  level_max : Int
  cache : MenuCache
  strategy : Strategy
deriving DecidableEq

/-- `_get_all_nodes`: `MenuNode.tree.all()`. -/
def _get_all_nodes (store : Store) : List MenuNode :=
  store

/-- `_get_root_nodes`: `MenuNode.tree.root_nodes()` (level-0 nodes). -/
def _get_root_nodes (store : Store) : List MenuNode :=
  store.filter (fun m => m.level == 0)

/-- `_get_branch_nodes`:
`self.node.get_root().get_descendants(include_self=True)`. -/
def _get_branch_nodes (store : Store) (n : MenuNode) : List MenuNode :=
  get_descendants store (get_root store n) true

/-- `_get_root_and_branch_nodes`: `Q(level=0) | Q(id__in=`
`self.node.get_root().get_descendants().values_list('id', flat=True))`. -/
def _get_root_and_branch_nodes (store : Store) (n : MenuNode) : List MenuNode :=
  store.filter (fun m =>
    m.level == 0 ||
      ((get_descendants store (get_root store n) false).map MenuNode.id).contains m.id)

/-- `_get_root_and_sibblings_nodes`:
`Q(level=0) | Q(parent=self.node.parent)`. -/
def _get_root_and_sibblings_nodes (store : Store) (n : MenuNode) : List MenuNode :=
  store.filter (fun m => m.level == 0 || m.parent == n.parent)

/-- `_get_root_and_children_nodes`: `Q(level=0) | Q(parent=self.node)`.
`self.node` is used as a filter value, not dereferenced, so an unresolved
node (`None`) raises nothing: `parent=None` matches the null-parent rows. -/
def _get_root_and_children_nodes (store : Store) (node : Option MenuNode) :
    List MenuNode :=
  store.filter (fun m => m.level == 0 || m.parent == node.map MenuNode.id)

/-- `_get_children_nodes`: `self.node.children.all()`. -/
def _get_children_nodes (store : Store) (n : MenuNode) : List MenuNode :=
  store.filter (fun m => m.parent == some n.id)

/-- `_get_ancestors_nodes`: `self.node.get_ancestors()`. -/
def _get_ancestors_nodes (store : Store) (n : MenuNode) : List MenuNode :=
  get_ancestors store n

/-- `_get_descendants_nodes`: `self.node.get_descendants()`. -/
def _get_descendants_nodes (store : Store) (n : MenuNode) : List MenuNode :=
  get_descendants store n false

/-- `determine_tree` with every documented override: each strategy that
dereferences `self.node` raises `AttributeError` when the node is
unresolved (`None.get_root()`, `None.parent`, `None.children`, ...);
`_get_root_and_children_nodes` only passes `self.node` as a value and so
never raises. -/
def determine_tree (p : MenuProcessor) : Except PyErr (List MenuNode) :=
  match p.strategy with
  | .allNodes => .ok (_get_all_nodes p.store)
  | .rootNodes => .ok (_get_root_nodes p.store)
  | .branch =>
    match p.node with
    | none => .error .attributeError
    | some n => .ok (_get_branch_nodes p.store n)
  | .rootAndBranch =>
    match p.node with
    | none => .error .attributeError
    | some n => .ok (_get_root_and_branch_nodes p.store n)
  | .rootAndSiblings =>
    match p.node with
    | none => .error .attributeError
    | some n => .ok (_get_root_and_sibblings_nodes p.store n)
  | .rootAndChildren => .ok (_get_root_and_children_nodes p.store p.node)
  | .children =>
    match p.node with
    | none => .error .attributeError
    | some n => .ok (_get_children_nodes p.store n)
  | .ancestors =>
    match p.node with
    | none => .error .attributeError
    | some n => .ok (_get_ancestors_nodes p.store n)
  | .descendants =>
    match p.node with
    | none => .error .attributeError
    | some n => .ok (_get_descendants_nodes p.store n)

/-- `get_default_tree`: the fallback used when no node was found. -/
def get_default_tree (p : MenuProcessor) : List MenuNode :=
  _get_all_nodes p.store

/-- The `try/except AttributeError` around `self.determine_tree()`:
only an `AttributeError` is recovered, by substituting
`get_default_tree`; every other exception passes through. -/
def recoverAttributeError (det : Except PyErr (List MenuNode))
    (p : MenuProcessor) : Except PyErr (List MenuNode) :=
  match det with
  | .error .attributeError => .ok (get_default_tree p)
  | d => d

/-- Body of `get_nodes`, parametrised by the outcome `det` of the
(overridable) `determine_tree` call.  The returned flag is `true` exactly
when the early cached return was taken. -/
def get_nodes_aux (p : MenuProcessor) (det : Except PyErr (List MenuNode)) :
    Except PyErr (List MenuNode × MenuProcessor × Bool) :=
  let cached := cacheLookup p.cache p.object
  if truthy cached then
    .ok (cached.getD [], p, true)
  else
    match recoverAttributeError det p with
    | .error e => .error e
    | .ok ns =>
      let filtered := levelRangeFilter p.level_min p.level_max ns
      .ok (filtered, { p with cache := cacheStore p.cache p.object filtered }, false)

/-- `get_nodes`: cached lookup, strategy invocation with the
`AttributeError` fallback, depth filter, cache store. -/
def get_nodes (p : MenuProcessor) :
    Except PyErr (List MenuNode × MenuProcessor × Bool) :=
  get_nodes_aux p (determine_tree p)

/-- Nodes related to subject `o` by `(content type of class, object id)`:
both `self.object.menu_node.get()` (reverse generic relation) and
`MenuNode.tree.get(content_type=..., object_id=...)` read this row set. -/
def relatedNodes (store : Store) (o : Subject) : List MenuNode :=
  store.filter (fun m => m.content_type == o.content_type && m.object_id == o.id)

/-- `determine_object_from_context`: skipped entirely when the object was
passed explicitly; otherwise take the context's `object`; otherwise
extract a request path (primary convention, then the legacy
`context['request_path']`, whose miss raises `KeyError`) and scan every
node's subject URL.  On a match the source runs
`self.object = self.object.content_object` while `self.object` is `None`,
an `AttributeError`. -/
def determine_object_from_context (p : MenuProcessor) :
    Except PyErr MenuProcessor :=
  if p.object_passed then
    .ok p
  else
    match p.object <|> p.context.object with
    | some o => .ok { p with object := some o }
    | none =>
      match
        (match p.context.view_request_path with
         | some s => Except.ok s
         | none =>
           match p.context.request_path with
           | some s => Except.ok s
           | none => Except.error PyErr.keyError) with
      | .error e => .error e
      | .ok path =>
        match p.store.filter (fun m => m.url == path) with
        | [] => .ok { p with object := none }
        | _ :: _ => .error .attributeError

/-- `determine_node_from_object`: a no-op when a node is already set or
no object is resolved; otherwise a uniqueness-requiring `get()` through
the direct generic relation (when declared) or the generic
content-type lookup.  Zero rows raise `DoesNotExist`, several raise
`MultipleObjectsReturned`. -/
def determine_node_from_object (p : MenuProcessor) :
    Except PyErr MenuProcessor :=
  match p.node, p.object with
  | some _, _ => .ok p
  | none, none => .ok p
  | none, some o =>
    if o.has_menu_node then
      match relatedNodes p.store o with
      | [n] => .ok { p with node := some n }
      | [] => .error .doesNotExist
      | _ :: _ :: _ => .error .multipleObjectsReturned
    else
      match relatedNodes p.store o with
      | [n] => .ok { p with node := some n }
      | [] => .error .doesNotExist
      | _ :: _ :: _ => .error .multipleObjectsReturned

/-- `MenuProcessor.__init__`: `kwObject = some v` models the keyword
argument `object=v` being present (`'object' in kwargs`), `none` its
absence.  The constructor stores the window and a fresh cache, then runs
the two determination steps; any exception they raise propagates. -/
def MenuProcessor.init (store : Store) (ctx : Context)
    (level_min level_max : Int) (strategy : Strategy)
    (kwObject : Option (Option Subject)) : Except PyErr MenuProcessor :=
  let p0 : MenuProcessor :=
    { context := ctx
      store := store
      object_passed := kwObject.isSome
      object := kwObject.getD none
      node := none
      level_min := level_min
      level_max := level_max
      cache := []
      strategy := strategy }
  match determine_object_from_context p0 with
  | .error e => .error e
  | .ok p1 => determine_node_from_object p1

/-! ### Well-formedness of the backing store

The spec's tree invariants: node identities are unique, a parent
reference resolves inside the store with the child one level below the
parent, and parentless nodes sit at depth 0. -/

/-- The spec's depth invariant at one node, as a decidable check. -/
def parentOk (store : Store) (m : MenuNode) : Bool :=
  match m.parent with
  | none => m.level == 0
  | some pid =>
    match findNode store pid with
    | none => false
    | some p => m.level == p.level + 1

/-- A well-formed store: distinct identities and the depth invariant. -/
def WellFormed (store : Store) : Prop :=
  (store.map MenuNode.id).Nodup ∧ ∀ m ∈ store, parentOk store m = true

instance (store : Store) : Decidable (WellFormed store) := by
  unfold WellFormed
  infer_instance

/-! ### Concrete fixtures

The four-node tree of the spec's scenario (root A; B, C under A; D under
B), a two-node store, and a store with a duplicated subject relation. -/

def nodeA : MenuNode :=
  { id := 0, parent := none, level := 0, content_type := 10, object_id := 100, url := "/a/" }

def nodeB : MenuNode :=
  { id := 1, parent := some 0, level := 1, content_type := 10, object_id := 101, url := "/b/" }

def nodeC : MenuNode :=
  { id := 2, parent := some 0, level := 1, content_type := 10, object_id := 102, url := "/c/" }

def nodeD : MenuNode :=
  { id := 3, parent := some 1, level := 2, content_type := 10, object_id := 103, url := "/d/" }

def store4 : Store := [nodeA, nodeB, nodeC, nodeD]

def store2 : Store := [nodeA, nodeB]

/-- A second node claiming the same subject as `nodeA`, for the
ambiguous-relation case. -/
def nodeA2 : MenuNode :=
  { id := 4, parent := none, level := 0, content_type := 10, object_id := 100, url := "/a2/" }

def storeDup : Store := [nodeA, nodeA2]

def subjA : Subject := { id := 100, content_type := 10, has_menu_node := false }

def subjC : Subject := { id := 102, content_type := 10, has_menu_node := true }

def subjD : Subject := { id := 103, content_type := 10, has_menu_node := false }

/-- A subject backed by no node at all. -/
def subjX : Subject := { id := 999, content_type := 10, has_menu_node := true }

/-- A context carrying nothing at all: no object, no resolvable path. -/
def ctxEmpty : Context :=
  { object := none, view_request_path := none, request_path := none }

/-- A context whose legacy path matches no node URL. -/
def ctxNoMatch : Context :=
  { object := none, view_request_path := none, request_path := some "/x/" }

/-- A context whose primary path matches `nodeA`'s URL. -/
def ctxMatchA : Context :=
  { object := none, view_request_path := some "/a/", request_path := none }

/-! ### Tree lemmas -/

theorem findNode_mem {store : Store} {i : Nat} {p : MenuNode}
    (h : findNode store i = some p) : p ∈ store :=
  List.mem_of_find?_eq_some h

theorem findNode_id {store : Store} {i : Nat} {p : MenuNode}
    (h : findNode store i = some p) : p.id = i := by
  have := List.find?_some h
  simpa using this

theorem getRootFuel_mem {store : Store} :
    ∀ (f : Nat) (n : MenuNode), n ∈ store → getRootFuel f store n ∈ store := by
  intro f
  induction f with
  | zero => intro n hn; simpa [getRootFuel] using hn
  | succ f ih =>
    intro n hn
    cases hp : n.parent with
    | none => simpa [getRootFuel, hp] using hn
    | some pid =>
      cases hf : findNode store pid with
      | none => simpa [getRootFuel, hp, hf] using hn
      | some p => simpa [getRootFuel, hp, hf] using ih p (findNode_mem hf)

theorem getRootFuel_of_parent_none {store : Store} {n : MenuNode}
    (h : n.parent = none) : ∀ f, getRootFuel f store n = n := by
  intro f
  cases f with
  | zero => rfl
  | succ f => simp [getRootFuel, h]

theorem ancChainFuel_of_parent_none {store : Store} {n : MenuNode}
    (h : n.parent = none) : ∀ f, ancChainFuel f store n = [] := by
  intro f
  cases f with
  | zero => rfl
  | succ f => simp [ancChainFuel, h]

theorem wf_parent {store : Store} {m : MenuNode} {pid : Nat}
    (hwf : WellFormed store) (hm : m ∈ store) (hp : m.parent = some pid) :
    ∃ p, findNode store pid = some p ∧ m.level = p.level + 1 := by
  have h := hwf.2 m hm
  unfold parentOk at h
  rw [hp] at h
  cases hf : findNode store pid with
  | none => simp [hf] at h
  | some p =>
    simp [hf] at h
    exact ⟨p, rfl, h⟩

theorem wf_parent_none {store : Store} {m : MenuNode}
    (hwf : WellFormed store) (hm : m ∈ store) (hp : m.parent = none) :
    m.level = 0 := by
  have h := hwf.2 m hm
  unfold parentOk at h
  rw [hp] at h
  simpa using h

theorem wf_level_zero {store : Store} {m : MenuNode}
    (hwf : WellFormed store) (hm : m ∈ store) (hl : m.level = 0) :
    m.parent = none := by
  cases hp : m.parent with
  | none => rfl
  | some pid =>
    obtain ⟨p, _, hlev⟩ := wf_parent hwf hm hp
    omega

theorem get_root_step {store : Store} {n p : MenuNode} {pid : Nat}
    (hwf : WellFormed store) (hn : n ∈ store) (hp : n.parent = some pid)
    (hf : findNode store pid = some p) :
    get_root store n = get_root store p := by
  obtain ⟨p', hf', hlev⟩ := wf_parent hwf hn hp
  rw [hf'] at hf
  cases hf
  unfold get_root
  rw [hlev]
  simp [getRootFuel, hp, hf']

theorem anc_step {store : Store} {n p : MenuNode} {pid : Nat}
    (hwf : WellFormed store) (hn : n ∈ store) (hp : n.parent = some pid)
    (hf : findNode store pid = some p) :
    get_ancestors store n = get_ancestors store p ++ [p] := by
  obtain ⟨p', hf', hlev⟩ := wf_parent hwf hn hp
  rw [hf'] at hf
  cases hf
  unfold get_ancestors
  rw [hlev]
  simp [ancChainFuel, hp, hf']

theorem get_root_parent_none {store : Store} (hwf : WellFormed store) :
    ∀ (f : Nat) (n : MenuNode), n ∈ store → n.level ≤ f →
      (get_root store n).parent = none := by
  intro f
  induction f with
  | zero =>
    intro n hn hl
    have hl0 : n.level = 0 := Nat.le_zero.mp hl
    have hp := wf_level_zero hwf hn hl0
    rw [get_root, getRootFuel_of_parent_none hp]
    exact hp
  | succ f ih =>
    intro n hn hl
    cases hp : n.parent with
    | none =>
      rw [get_root, getRootFuel_of_parent_none hp]
      exact hp
    | some pid =>
      obtain ⟨p, hf, hlev⟩ := wf_parent hwf hn hp
      rw [get_root_step hwf hn hp hf]
      exact ih p (findNode_mem hf) (by omega)

theorem get_root_mem {store : Store} {n : MenuNode} (hn : n ∈ store) :
    get_root store n ∈ store :=
  getRootFuel_mem n.level n hn

theorem get_root_of_root {store : Store} {r : MenuNode} (hr : r.parent = none) :
    get_root store r = r :=
  getRootFuel_of_parent_none hr r.level

theorem anc_mem {store : Store} :
    ∀ (f : Nat) (n a : MenuNode), a ∈ ancChainFuel f store n → a ∈ store := by
  intro f
  induction f with
  | zero => intro n a ha; simp [ancChainFuel] at ha
  | succ f ih =>
    intro n a ha
    cases hp : n.parent with
    | none => simp [ancChainFuel, hp] at ha
    | some pid =>
      cases hf : findNode store pid with
      | none => simp [ancChainFuel, hp, hf] at ha
      | some p =>
        simp only [ancChainFuel, hp, hf] at ha
        rcases List.mem_append.mp ha with h | h
        · exact ih p a h
        · rw [List.mem_singleton.mp h]; exact findNode_mem hf

theorem get_ancestors_mem {store : Store} {n a : MenuNode}
    (ha : a ∈ get_ancestors store n) : a ∈ store :=
  anc_mem n.level n a ha

theorem anc_root {store : Store} (hwf : WellFormed store) :
    ∀ (f : Nat) (n : MenuNode), n ∈ store → n.level ≤ f →
      ∀ a ∈ get_ancestors store n, get_root store a = get_root store n := by
  intro f
  induction f with
  | zero =>
    intro n hn hl a ha
    have hp := wf_level_zero hwf hn (Nat.le_zero.mp hl)
    rw [get_ancestors, ancChainFuel_of_parent_none hp] at ha
    simp at ha
  | succ f ih =>
    intro n hn hl a ha
    cases hp : n.parent with
    | none =>
      rw [get_ancestors, ancChainFuel_of_parent_none hp] at ha
      simp at ha
    | some pid =>
      obtain ⟨p, hf, hlev⟩ := wf_parent hwf hn hp
      rw [anc_step hwf hn hp hf] at ha
      have hpm : p ∈ store := findNode_mem hf
      rcases List.mem_append.mp ha with h | h
      · rw [ih p hpm (by omega) a h]
        exact (get_root_step hwf hn hp hf).symm
      · rw [List.mem_singleton.mp h]
        exact (get_root_step hwf hn hp hf).symm

theorem root_mem_anc {store : Store} (hwf : WellFormed store) :
    ∀ (f : Nat) (n : MenuNode), n ∈ store → n.level ≤ f →
      get_root store n ∈ get_ancestors store n ∨ get_root store n = n := by
  intro f
  induction f with
  | zero =>
    intro n hn hl
    have hp := wf_level_zero hwf hn (Nat.le_zero.mp hl)
    exact Or.inr (get_root_of_root hp)
  | succ f ih =>
    intro n hn hl
    cases hp : n.parent with
    | none => exact Or.inr (get_root_of_root hp)
    | some pid =>
      obtain ⟨p, hf, hlev⟩ := wf_parent hwf hn hp
      have hpm : p ∈ store := findNode_mem hf
      rw [anc_step hwf hn hp hf, get_root_step hwf hn hp hf]
      rcases ih p hpm (by omega) with h | h
      · exact Or.inl (List.mem_append.mpr (Or.inl h))
      · exact Or.inl (List.mem_append.mpr (Or.inr (by simp [h])))

theorem id_inj {store : Store} (hids : (store.map MenuNode.id).Nodup)
    {a b : MenuNode} (ha : a ∈ store) (hb : b ∈ store) (h : a.id = b.id) :
    a = b :=
  List.inj_on_of_nodup_map hids ha hb h

/-! ### Processor lemmas -/

theorem determine_object_ok_shape {q r : MenuProcessor}
    (h : determine_object_from_context q = .ok r) :
    ∃ ob, r = { q with object := ob } := by
  unfold determine_object_from_context at h
  split at h
  · exact ⟨q.object, by cases h; rfl⟩
  · split at h
    · exact ⟨r.object, by cases h; rfl⟩
    · split at h
      · exact absurd h (by simp)
      · split at h
        · exact ⟨none, by cases h; rfl⟩
        · exact absurd h (by simp)

theorem determine_node_ok_shape {q r : MenuProcessor}
    (h : determine_node_from_object q = .ok r) :
    ∃ nd, r = { q with node := nd } := by
  unfold determine_node_from_object at h
  split at h
  · rename_i nv heq
    exact ⟨some nv, by cases h; rw [← heq]⟩
  · rename_i heq1 heq2
    exact ⟨none, by cases h; rw [← heq1]⟩
  · split at h <;> split at h
    · rename_i n heq
      exact ⟨some n, by cases h; rfl⟩
    · exact absurd h (by simp)
    · exact absurd h (by simp)
    · rename_i n heq
      exact ⟨some n, by cases h; rfl⟩
    · exact absurd h (by simp)
    · exact absurd h (by simp)

theorem init_ok_shape {store : Store} {ctx : Context} {lmin lmax : Int}
    {strat : Strategy} {kw : Option (Option Subject)} {p : MenuProcessor}
    (h : MenuProcessor.init store ctx lmin lmax strat kw = .ok p) :
    p.store = store ∧ p.cache = [] ∧ p.level_min = lmin ∧ p.level_max = lmax ∧
      p.strategy = strat ∧ p.context = ctx ∧ p.object_passed = kw.isSome := by
  simp only [MenuProcessor.init] at h
  split at h
  · exact absurd h (by simp)
  · rename_i p1 h1
    obtain ⟨ob, rfl⟩ := determine_object_ok_shape h1
    obtain ⟨nd, rfl⟩ := determine_node_ok_shape h
    exact ⟨rfl, rfl, rfl, rfl, rfl, rfl, rfl⟩

theorem cacheLookup_nil {k : Option Subject} : cacheLookup [] k = none := rfl

theorem cacheLookup_store_self {c : MenuCache} {k : Option Subject}
    {v : List MenuNode} : cacheLookup (cacheStore c k v) k = some v := by
  simp [cacheLookup, cacheStore, List.find?]

theorem truthy_none : truthy none = false := rfl

theorem truthy_some {ns : List MenuNode} (h : ns ≠ []) :
    truthy (some ns) = true := by
  cases ns with
  | nil => exact absurd rfl h
  | cons a l => rfl

theorem truthy_some_iff {ns : List MenuNode} :
    truthy (some ns) = true ↔ ns ≠ [] := by
  cases ns <;> simp [truthy]

/-- The only exception a built-in strategy ever raises is the
attribute-style error from dereferencing an unresolved node. -/
theorem determine_tree_error_eq {p : MenuProcessor} {e : PyErr}
    (h : determine_tree p = .error e) : e = .attributeError := by
  unfold determine_tree at h
  split at h <;> first
    | (exact absurd h (by simp))
    | (split at h
       · cases h; rfl
       · exact absurd h (by simp))

theorem recover_ok {p : MenuProcessor} :
    ∃ ns, recoverAttributeError (determine_tree p) p = .ok ns := by
  cases hd : determine_tree p with
  | ok ns => exact ⟨ns, by simp [recoverAttributeError]⟩
  | error e =>
    cases determine_tree_error_eq hd
    exact ⟨get_default_tree p, by simp [recoverAttributeError]⟩

theorem recover_other {p : MenuProcessor} {e : PyErr}
    (h : e ≠ PyErr.attributeError) :
    recoverAttributeError (.error e) p = .error e := by
  cases e with
  | attributeError => exact absurd rfl h
  | keyError => rfl
  | doesNotExist => rfl
  | multipleObjectsReturned => rfl
  | other code => rfl

theorem gna_miss_shape {p : MenuProcessor} {det : Except PyErr (List MenuNode)}
    {ns base : List MenuNode}
    (hmiss : truthy (cacheLookup p.cache p.object) = false)
    (hrec : recoverAttributeError det p = .ok base)
    (hns : ns = levelRangeFilter p.level_min p.level_max base) :
    get_nodes_aux p det =
      .ok (ns, { p with cache := cacheStore p.cache p.object ns }, false) := by
  simp only [get_nodes_aux, hmiss, hrec, Bool.false_eq_true, if_false]
  rw [hns]

theorem gna_error {p : MenuProcessor} {det : Except PyErr (List MenuNode)}
    {e : PyErr}
    (hmiss : truthy (cacheLookup p.cache p.object) = false)
    (hrec : recoverAttributeError det p = .error e) :
    get_nodes_aux p det = .error e := by
  simp only [get_nodes_aux, hmiss, hrec, Bool.false_eq_true, if_false]

theorem gna_hit_shape {p : MenuProcessor} {det : Except PyErr (List MenuNode)}
    {ns : List MenuNode} {p1 : MenuProcessor}
    (h : get_nodes_aux p det = .ok (ns, p1, true)) :
    cacheLookup p.cache p.object = some ns ∧ ns ≠ [] ∧ p1 = p := by
  simp only [get_nodes_aux] at h
  split at h
  · rename_i htr
    cases hc : cacheLookup p.cache p.object with
    | none => rw [hc] at htr; simp [truthy] at htr
    | some cached =>
      rw [hc] at htr h
      cases h
      exact ⟨by simp, (truthy_some_iff).mp htr, rfl⟩
  · split at h
    · exact absurd h (by simp)
    · exact absurd h (by simp)

theorem gna_ok_false_shape {p : MenuProcessor}
    {det : Except PyErr (List MenuNode)} {ns : List MenuNode}
    {p1 : MenuProcessor}
    (h : get_nodes_aux p det = .ok (ns, p1, false)) :
    truthy (cacheLookup p.cache p.object) = false ∧
      ∃ base, recoverAttributeError det p = .ok base ∧
        ns = levelRangeFilter p.level_min p.level_max base ∧
        p1 = { p with cache := cacheStore p.cache p.object ns } := by
  simp only [get_nodes_aux] at h
  split at h
  · exact absurd h (by simp)
  · rename_i htr
    refine ⟨by simpa using htr, ?_⟩
    split at h
    · exact absurd h (by simp)
    · rename_i base hrec
      cases h
      exact ⟨base, hrec, rfl, rfl⟩

theorem mem_levelRangeFilter {lmin lmax : Int} {ns : List MenuNode}
    {m : MenuNode} (h : m ∈ levelRangeFilter lmin lmax ns) :
    lmin ≤ (m.level : Int) ∧ (m.level : Int) ≤ lmax := by
  have := List.of_mem_filter h
  simpa using this

/-! ### Concrete processors used by the claim instances -/

/-- Processor that erases the stored context, for stating that a value
does not depend on the rendering context. -/
def clearContext (p : MenuProcessor) : MenuProcessor :=
  { p with context := ctxEmpty }

/-- Fresh processor over `store2` whose path matched nothing: no object,
no node, window `[0, 0]`. -/
def pC1 : MenuProcessor :=
  { context := ctxNoMatch, store := store2, object_passed := false,
    object := none, node := none, level_min := 0, level_max := 0,
    cache := [], strategy := .allNodes }

def pC1a : MenuProcessor := { pC1 with cache := [(none, [nodeA])] }

/-- Fresh processor with no resolved node and the root+children
strategy. -/
def pRC : MenuProcessor :=
  { context := ctxNoMatch, store := store2, object_passed := false,
    object := none, node := none, level_min := 0, level_max := 64,
    cache := [], strategy := .rootAndChildren }

def pRCa : MenuProcessor := { pRC with cache := [(none, [nodeA])] }

/-- Fresh processor with no resolved node, used for the amended fallback
statement. -/
def pNoNode : MenuProcessor :=
  { context := ctxNoMatch, store := store2, object_passed := false,
    object := none, node := none, level_min := 0, level_max := 64,
    cache := [], strategy := .allNodes }

/-- Processor constructed with the explicit override `subjA`. -/
def pC4 : MenuProcessor :=
  { context := ctxMatchA, store := store2, object_passed := true,
    object := some subjA, node := none, level_min := 0, level_max := 64,
    cache := [], strategy := .allNodes }

/-- The resolver state produced by constructing with override `subjA`. -/
def pC4res : MenuProcessor :=
  { context := ctxMatchA, store := store2, object_passed := true,
    object := some subjA, node := some nodeA, level_min := 0,
    level_max := 64, cache := [], strategy := .allNodes }

/-- Resolver over `store2` with subject `subjA`, full window. -/
def pC3 : MenuProcessor :=
  { context := ctxEmpty, store := store2, object_passed := true,
    object := some subjA, node := some nodeA, level_min := 0,
    level_max := 64, cache := [], strategy := .allNodes }

def pC3a : MenuProcessor := { pC3 with cache := [(some subjA, [nodeA, nodeB])] }

/-- Resolver over `store2` with subject `subjA` and a window `[5, 64]`
that filters out every node. -/
def pC3e : MenuProcessor :=
  { context := ctxEmpty, store := store2, object_passed := true,
    object := some subjA, node := some nodeA, level_min := 5,
    level_max := 64, cache := [], strategy := .allNodes }

def pC3ea : MenuProcessor := { pC3e with cache := [(some subjA, [])] }

/-- The resolver of the spec's ancestors scenario: subject bound to `D`,
strategy "ancestors". -/
def pC8 : MenuProcessor :=
  { context := ctxEmpty, store := store4, object_passed := true,
    object := some subjD, node := some nodeD, level_min := 0,
    level_max := 64, cache := [], strategy := .ancestors }

def pC8a : MenuProcessor := { pC8 with cache := [(some subjD, [nodeA, nodeB])] }

/-- A subject with the direct relation declared that two store nodes
claim at once. -/
def subjAdup : Subject := { id := 100, content_type := 10, has_menu_node := true }

/-! ### Claim theorems -/

/-- Claim C1: for every depth window `[level_min, level_max]` given at
construction, every node in the sequence returned by `get_nodes` has a
depth `d` with `level_min <= d <= level_max`. -/
theorem claim1_depth_window {store : Store} {ctx : Context}
    {lmin lmax : Int} {strat : Strategy} {kw : Option (Option Subject)}
    {p p1 : MenuProcessor} {ns : List MenuNode} {hit : Bool}
    (h : MenuProcessor.init store ctx lmin lmax strat kw = .ok p)
    (h2 : get_nodes p = .ok (ns, p1, hit)) :
    ∀ m ∈ ns, lmin ≤ (m.level : Int) ∧ (m.level : Int) ≤ lmax := by
  obtain ⟨-, hc, hmin, hmax, -, -, -⟩ := init_ok_shape h
  unfold get_nodes at h2
  intro m hm
  cases hit with
  | true =>
    obtain ⟨hl, -, -⟩ := gna_hit_shape h2
    rw [hc, cacheLookup_nil] at hl
    exact absurd hl (by simp)
  | false =>
    obtain ⟨-, base, -, hns, -⟩ := gna_ok_false_shape h2
    rw [hns] at hm
    have hb := mem_levelRangeFilter hm
    rw [hmin, hmax] at hb
    exact hb

/-- Claim C1 witness: a concrete constructed resolver with window
`[0, 0]` whose result contains `nodeA`. -/
theorem claim1_depth_window_witness :
    (0 : Int) ≤ (nodeA.level : Int) ∧ (nodeA.level : Int) ≤ (0 : Int) :=
  @claim1_depth_window store2 ctxNoMatch 0 0 .allNodes none pC1 pC1a
    [nodeA] false rfl rfl nodeA (by decide)

/-- Claim C5 evaluation: the claim says subject determination never
raises, yet `determine_object_from_context` (run from the constructor)
raises `KeyError` when neither context convention yields a request path,
and raises `AttributeError` when the path matches a node's subject URL
(line 48 reads `self.object.content_object` while `self.object` is
`None`; the intent was plainly the matched node's subject). -/
theorem claim5_subject_determination_raises :
    MenuProcessor.init store2 ctxEmpty 0 64 .allNodes none =
      .error .keyError ∧
    MenuProcessor.init store2 ctxMatchA 0 64 .allNodes none =
      .error .attributeError :=
  ⟨rfl, rfl⟩

/-- Claim C8: in the tree with root `A`, children `B`, `C` under `A` and
`D` under `B`, resolving a subject bound to `D` with the "ancestors"
strategy returns exactly `[A, B]`, ordered root-to-parent. -/
theorem claim8_ancestors_scenario :
    MenuProcessor.init store4 ctxEmpty 0 64 .ancestors (some (some subjD)) =
      .ok pC8 ∧
    pC8.node = some nodeD ∧
    determine_tree pC8 = .ok [nodeA, nodeB] ∧
    get_nodes pC8 = .ok ([nodeA, nodeB], pC8a, false) :=
  ⟨rfl, rfl, rfl, rfl⟩

/-- Claim C9: for a subject whose type declares the direct relation,
node resolution errors when the relation lookup finds zero or several
matching nodes and the error propagates out of the constructor; a unique
match becomes the resolved node. -/
theorem claim9_relation_uniqueness {store : Store} {ctx : Context}
    {lmin lmax : Int} {strat : Strategy} (o : Subject)
    (ho : o.has_menu_node = true) :
    (relatedNodes store o = [] →
      MenuProcessor.init store ctx lmin lmax strat (some (some o)) =
        .error .doesNotExist) ∧
    (∀ n, relatedNodes store o = [n] →
      ∃ p, MenuProcessor.init store ctx lmin lmax strat (some (some o)) =
          .ok p ∧ p.node = some n ∧ p.object = some o) ∧
    (∀ n1 n2 rest, relatedNodes store o = n1 :: n2 :: rest →
      MenuProcessor.init store ctx lmin lmax strat (some (some o)) =
        .error .multipleObjectsReturned) := by
  refine ⟨?_, ?_, ?_⟩
  · intro hrel
    simp [MenuProcessor.init, determine_object_from_context,
      determine_node_from_object, ho, hrel]
  · intro n hrel
    refine ⟨{ context := ctx, store := store, object_passed := true,
              object := some o, node := some n, level_min := lmin,
              level_max := lmax, cache := [], strategy := strat },
            ?_, rfl, rfl⟩
    simp [MenuProcessor.init, determine_object_from_context,
      determine_node_from_object, ho, hrel]
  · intro n1 n2 rest hrel
    simp [MenuProcessor.init, determine_object_from_context,
      determine_node_from_object, ho, hrel]

/-- Claim C9 witness: the three relation outcomes at concrete stores:
no backing node (`subjX`), a unique backing node (`subjC` and `nodeC`),
and a duplicated backing node (`subjAdup` over `storeDup`). -/
theorem claim9_relation_uniqueness_witness :
    MenuProcessor.init store4 ctxEmpty 0 64 .allNodes (some (some subjX)) =
      .error .doesNotExist ∧
    (∃ p, MenuProcessor.init store4 ctxEmpty 0 64 .allNodes
        (some (some subjC)) = .ok p ∧ p.node = some nodeC ∧
        p.object = some subjC) ∧
    MenuProcessor.init storeDup ctxEmpty 0 64 .allNodes
      (some (some subjAdup)) = .error .multipleObjectsReturned :=
  ⟨(@claim9_relation_uniqueness store4 ctxEmpty 0 64 .allNodes subjX rfl).1 rfl,
   (@claim9_relation_uniqueness store4 ctxEmpty 0 64 .allNodes subjC rfl).2.1
      nodeC rfl,
   (@claim9_relation_uniqueness storeDup ctxEmpty 0 64 .allNodes subjAdup
      rfl).2.2 nodeA nodeA2 [] rfl⟩

/-- `determine_node_from_object` never consults the stored context:
on processors equal up to their context, its results are equal up to
their context. -/
theorem determine_node_clear {q1 q2 : MenuProcessor}
    (h : clearContext q1 = clearContext q2) :
    (determine_node_from_object q1).map clearContext =
      (determine_node_from_object q2).map clearContext := by
  obtain ⟨c1, s1, op1, o1, n1, lm1, lx1, ca1, st1⟩ := q1
  obtain ⟨c2, s2, op2, o2, n2, lm2, lx2, ca2, st2⟩ := q2
  simp only [clearContext, MenuProcessor.mk.injEq] at h
  obtain ⟨-, hs, hop, ho, hn, hlm, hlx, hca, hst⟩ := h
  subst hs; subst hop; subst ho; subst hn; subst hlm; subst hlx
  subst hca; subst hst
  unfold determine_node_from_object
  cases n1 with
  | some n => simp [clearContext, Except.map]
  | none =>
    cases o1 with
    | none => simp [clearContext, Except.map]
    | some o =>
      cases hrel : relatedNodes s1 o with
      | nil =>
        cases o.has_menu_node <;> simp [hrel, clearContext, Except.map]
      | cons n rest =>
        cases rest with
        | nil =>
          cases o.has_menu_node <;> simp [hrel, clearContext, Except.map]
        | cons n2 rest2 =>
          cases o.has_menu_node <;> simp [hrel, clearContext, Except.map]

/-- Claim C4: when the explicit subject override is supplied,
context-based subject detection is never attempted:
`determine_object_from_context` returns its input untouched, the
constructed resolver's subject equals the override, and construction
does not depend on the rendering context at all. -/
theorem claim4_override {store : Store} {ctx1 ctx2 : Context}
    {lmin lmax : Int} {strat : Strategy} {v : Option Subject} :
    (∀ q : MenuProcessor, q.object_passed = true →
      determine_object_from_context q = .ok q) ∧
    (MenuProcessor.init store ctx1 lmin lmax strat (some v)).map clearContext =
      (MenuProcessor.init store ctx2 lmin lmax strat (some v)).map clearContext ∧
    (∀ p, MenuProcessor.init store ctx1 lmin lmax strat (some v) = .ok p →
      p.object = v) := by
  refine ⟨?_, ?_, ?_⟩
  · intro q hq
    unfold determine_object_from_context
    simp [hq]
  · exact determine_node_clear rfl
  · intro p hp
    have hp' : determine_node_from_object
        { context := ctx1, store := store, object_passed := true,
          object := v, node := none, level_min := lmin, level_max := lmax,
          cache := [], strategy := strat } = .ok p := hp
    obtain ⟨nd, rfl⟩ := determine_node_ok_shape hp'
    rfl

/-- Claim C4 witness: with the override `subjA` supplied,
`determine_object_from_context` is the identity even on a context whose
path matches a node, and the constructed resolver's subject is the
override. -/
theorem claim4_override_witness :
    determine_object_from_context pC4 = .ok pC4 ∧
    pC4res.object = some subjA :=
  ⟨(@claim4_override store2 ctxMatchA ctxEmpty 0 64 .allNodes
      (some subjA)).1 pC4 rfl,
   (@claim4_override store2 ctxMatchA ctxEmpty 0 64 .allNodes
      (some subjA)).2.2 pC4res rfl⟩

/-- Claim C2 counterexample: with no node resolved and the documented
root+children override (`Q(level=0) | Q(parent=self.node)`), no
attribute-style error is raised — `self.node` is only used as a filter
value — and `get_nodes` returns just the root-level nodes, not the
default full-tree result for the same window. -/
theorem claim2_counterexample :
    MenuProcessor.init store2 ctxNoMatch 0 64 .rootAndChildren none =
      .ok pRC ∧
    pRC.node = none ∧
    determine_tree pRC = .ok [nodeA] ∧
    get_nodes pRC = .ok ([nodeA], pRCa, false) ∧
    levelRangeFilter 0 64 (get_default_tree pRC) = [nodeA, nodeB] ∧
    ([nodeA] : List MenuNode) ≠ [nodeA, nodeB] :=
  ⟨rfl, rfl, rfl, rfl, rfl, by decide⟩

/-- Claim C2 (amended): whenever no node is resolved, every strategy
that dereferences the unresolved node (branch, root+branch,
root+siblings, children, ancestors, descendants) raises the
attribute-style error, which is recovered exactly once at the
`get_nodes` boundary by substituting the default full-tree result
filtered to the same depth window; the root+children strategy raises
nothing and instead returns the root-level nodes filtered to the window;
any exception other than the attribute-style one propagates uncaught. -/
theorem claim2_no_node_fallback {p : MenuProcessor}
    (hnode : p.node = none)
    (hmiss : truthy (cacheLookup p.cache p.object) = false) :
    (∀ s : Strategy, s ≠ .allNodes → s ≠ .rootNodes → s ≠ .rootAndChildren →
      determine_tree { p with strategy := s } = .error .attributeError ∧
      get_nodes { p with strategy := s } =
        .ok (levelRangeFilter p.level_min p.level_max (get_default_tree p),
          { p with
            strategy := s
            cache := cacheStore p.cache p.object
              (levelRangeFilter p.level_min p.level_max
                (get_default_tree p)) },
          false)) ∧
    (get_nodes { p with strategy := .rootAndChildren } =
      .ok (levelRangeFilter p.level_min p.level_max
            (_get_root_and_children_nodes p.store none),
        { p with
          strategy := .rootAndChildren
          cache := cacheStore p.cache p.object
            (levelRangeFilter p.level_min p.level_max
              (_get_root_and_children_nodes p.store none)) },
        false)) ∧
    (∀ e : PyErr, e ≠ .attributeError →
      get_nodes_aux p (.error e) = .error e) := by
  refine ⟨?_, ?_, ?_⟩
  · intro s h1 h2 h3
    have hdet : determine_tree { p with strategy := s } =
        .error .attributeError := by
      cases s with
      | allNodes => exact absurd rfl h1
      | rootNodes => exact absurd rfl h2
      | rootAndChildren => exact absurd rfl h3
      | branch => simp [determine_tree, hnode]
      | rootAndBranch => simp [determine_tree, hnode]
      | rootAndSiblings => simp [determine_tree, hnode]
      | children => simp [determine_tree, hnode]
      | ancestors => simp [determine_tree, hnode]
      | descendants => simp [determine_tree, hnode]
    refine ⟨hdet, ?_⟩
    show get_nodes_aux _ _ = _
    rw [hdet]
    exact gna_miss_shape hmiss rfl rfl
  · have hdet : determine_tree { p with strategy := .rootAndChildren } =
        .ok (_get_root_and_children_nodes p.store none) := by
      simp [determine_tree, hnode]
    show get_nodes_aux _ _ = _
    rw [hdet]
    exact gna_miss_shape hmiss rfl rfl
  · intro e he
    exact gna_error hmiss (recover_other he)

/-- Claim C2 witness: over the two-node store with no node resolved, the
ancestors override raises and is recovered into the full tree `[A, B]`,
while a foreign exception propagates out of `get_nodes`. -/
theorem claim2_no_node_fallback_witness :
    determine_tree { pNoNode with strategy := .ancestors } =
      .error .attributeError ∧
    get_nodes { pNoNode with strategy := .ancestors } =
      .ok ([nodeA, nodeB],
        { pNoNode with
          strategy := .ancestors
          cache := [(none, [nodeA, nodeB])] }, false) ∧
    get_nodes_aux pNoNode (.error (.other 7)) = .error (.other 7) :=
  ⟨((@claim2_no_node_fallback pNoNode rfl rfl).1 .ancestors
      (by decide) (by decide) (by decide)).1,
   ((@claim2_no_node_fallback pNoNode rfl rfl).1 .ancestors
      (by decide) (by decide) (by decide)).2,
   (@claim2_no_node_fallback pNoNode rfl rfl).2.2 (.other 7) (by decide)⟩

/-- Claim C3 counterexample: `subjA` has a unique backing node, yet when
the depth-filtered result is empty the second `get_nodes` call is not a
cache hit: the stored entry `[]` is falsy under `if not nodes:`, so the
call recomputes (flag `false`, the early cached return is not taken)
instead of returning the stored sequence object. -/
theorem claim3_counterexample :
    relatedNodes store2 subjA = [nodeA] ∧
    get_nodes pC3e = .ok ([], pC3ea, false) ∧
    cacheLookup pC3ea.cache pC3ea.object = some [] ∧
    get_nodes pC3ea = .ok ([], pC3ea, false) :=
  ⟨rfl, rfl, rfl, rfl⟩

/-- Claim C3 (amended): whenever the first `get_nodes` call computes
a non-empty sequence, a second call on the resulting resolver state is a
cache hit and returns the identical stored sequence without
recomputation; an empty computed sequence is recomputed instead. -/
theorem claim3_cache_hit {p p1 : MenuProcessor} {ns : List MenuNode}
    (h1 : get_nodes p = .ok (ns, p1, false)) (h2 : ns ≠ []) :
    get_nodes p1 = .ok (ns, p1, true) := by
  unfold get_nodes at h1
  obtain ⟨-, base, hrec, hns, hp1⟩ := gna_ok_false_shape h1
  have hl : cacheLookup p1.cache p1.object = some ns := by
    rw [hp1]
    exact cacheLookup_store_self
  show get_nodes_aux p1 (determine_tree p1) = .ok (ns, p1, true)
  simp only [get_nodes_aux, hl, truthy_some h2, if_true, Option.getD_some]

/-- Claim C3 witness: over the two-node store with subject `subjA` and
window `[0, 64]`, the first call computes `[A, B]` and the second call
is a cache hit returning the same sequence. -/
theorem claim3_cache_hit_witness :
    get_nodes pC3a = .ok ([nodeA, nodeB], pC3a, true) :=
  @claim3_cache_hit pC3 pC3a [nodeA, nodeB] rfl (by decide)

/-- Claim C10: a cache hit happens only when the stored sequence is
non-empty; when the first call computed the empty sequence, the second
call recomputes (the early cached return is not taken) instead of
returning the stored entry. -/
theorem claim10_empty_not_cached (p : MenuProcessor) :
    (∀ ns p1, get_nodes p = .ok (ns, p1, true) →
      cacheLookup p.cache p.object = some ns ∧ ns ≠ []) ∧
    (∀ p1, get_nodes p = .ok ([], p1, false) →
      ∃ ns2 p2, get_nodes p1 = .ok (ns2, p2, false)) := by
  constructor
  · intro ns p1 h
    unfold get_nodes at h
    obtain ⟨hl, hne, -⟩ := gna_hit_shape h
    exact ⟨hl, hne⟩
  · intro p1 h
    unfold get_nodes at h
    obtain ⟨-, base, -, -, hp1⟩ := gna_ok_false_shape h
    have hl : cacheLookup p1.cache p1.object = some [] := by
      rw [hp1]
      exact cacheLookup_store_self
    have hmiss1 : truthy (cacheLookup p1.cache p1.object) = false := by
      rw [hl]
      rfl
    obtain ⟨base1, hrec1⟩ := @recover_ok p1
    exact ⟨_, _, gna_miss_shape hmiss1 hrec1 rfl⟩

/-- Claim C10 witness: concretely, after the empty-window first call the
second call is again a computed (non-hit) result. -/
theorem claim10_empty_not_cached_witness :
    ∃ ns2 p2, get_nodes pC3ea = .ok (ns2, p2, false) :=
  (claim10_empty_not_cached pC3e).2 pC3ea rfl

/-- Claim C6: for every resolved node of a well-formed store, the
"branch" strategy returns exactly the root of that node's tree plus all
of that root's descendants — the root itself and the resolved node
included — and every returned node lies in the same tree (same root),
so no node of a different tree appears. -/
theorem claim6_branch {store : Store} {n : MenuNode}
    (hwf : WellFormed store) (hn : n ∈ store) :
    get_root store n ∈ store ∧
    (get_root store n).parent = none ∧
    get_root store n ∈ _get_branch_nodes store n ∧
    n ∈ _get_branch_nodes store n ∧
    (∀ m, m ∈ _get_branch_nodes store n ↔
      m ∈ store ∧ (m = get_root store n ∨
        isAncestorOf store (get_root store n) m = true)) ∧
    (∀ m ∈ _get_branch_nodes store n,
      get_root store m = get_root store n) := by
  have hrmem : get_root store n ∈ store := get_root_mem hn
  have hrpar : (get_root store n).parent = none :=
    get_root_parent_none hwf n.level n hn le_rfl
  have hrfix : get_root store (get_root store n) = get_root store n :=
    get_root_of_root hrpar
  have hiff : ∀ m, m ∈ _get_branch_nodes store n ↔
      m ∈ store ∧ (m = get_root store n ∨
        isAncestorOf store (get_root store n) m = true) := by
    intro m
    constructor
    · intro hm
      obtain ⟨hms, hpred⟩ := List.mem_filter.mp hm
      refine ⟨hms, ?_⟩
      rcases Bool.or_eq_true _ _ |>.mp hpred with h | h
      · exact Or.inr h
      · have hid : m.id = (get_root store n).id := by simpa using h
        exact Or.inl (id_inj hwf.1 hms hrmem hid)
    · intro ⟨hms, hcase⟩
      refine List.mem_filter.mpr ⟨hms, ?_⟩
      rcases hcase with h | h
      · subst h
        simp
      · simp [h]
  refine ⟨hrmem, hrpar, ?_, ?_, hiff, ?_⟩
  · exact (hiff (get_root store n)).mpr ⟨hrmem, Or.inl rfl⟩
  · refine (hiff n).mpr ⟨hn, ?_⟩
    rcases root_mem_anc hwf n.level n hn le_rfl with h | h
    · refine Or.inr ?_
      unfold isAncestorOf
      exact List.any_eq_true.mpr ⟨get_root store n, h, by simp⟩
    · exact Or.inl h.symm
  · intro m hm
    obtain ⟨hms, hcase⟩ := (hiff m).mp hm
    rcases hcase with h | h
    · rw [h, hrfix]
    · unfold isAncestorOf at h
      obtain ⟨x, hx, hxid⟩ := List.any_eq_true.mp h
      have hxs : x ∈ store := get_ancestors_mem hx
      have hxr : x = get_root store n :=
        id_inj hwf.1 hxs hrmem (by simpa using hxid)
      have := anc_root hwf m.level m hms le_rfl x hx
      rw [hxr, hrfix] at this
      exact this.symm

/-- Claim C6 witness: over the spec's four-node tree with resolved node
`D`, the root `A` and `D` itself are in the branch, and `C` (a member of
the branch) has the same root as `D`. -/
theorem claim6_branch_witness :
    get_root store4 nodeD ∈ _get_branch_nodes store4 nodeD ∧
    nodeD ∈ _get_branch_nodes store4 nodeD ∧
    get_root store4 nodeC = get_root store4 nodeD :=
  ⟨(@claim6_branch store4 nodeD (by decide) (by decide)).2.2.1,
   (@claim6_branch store4 nodeD (by decide) (by decide)).2.2.2.1,
   (@claim6_branch store4 nodeD (by decide) (by decide)).2.2.2.2.2
     nodeC (by decide)⟩

/-- Claim C7: for every resolved node, the "root + siblings" strategy
returns exactly the nodes that are at depth 0 or share the resolved
node's parent, each node appearing at most once. -/
theorem claim7_root_and_siblings {store : Store} {n : MenuNode}
    (hids : (store.map MenuNode.id).Nodup) :
    (∀ m, m ∈ _get_root_and_sibblings_nodes store n ↔
      m ∈ store ∧ (m.level = 0 ∨ m.parent = n.parent)) ∧
    (_get_root_and_sibblings_nodes store n).Nodup := by
  constructor
  · intro m
    simp [_get_root_and_sibblings_nodes, List.mem_filter]
  · exact (List.Nodup.of_map _ hids).filter _

/-- Claim C7 witness: over the four-node tree with resolved node `B`,
sibling `C` is in the result and the result has no duplicates. -/
theorem claim7_root_and_siblings_witness :
    nodeC ∈ _get_root_and_sibblings_nodes store4 nodeB ∧
    (_get_root_and_sibblings_nodes store4 nodeB).Nodup :=
  ⟨((@claim7_root_and_siblings store4 nodeB (by decide)).1 nodeC).mpr
      ⟨by decide, Or.inr (by decide)⟩,
   (@claim7_root_and_siblings store4 nodeB (by decide)).2⟩

end MpttMenu
